import Mathlib

/-!
Verification development for the drug-target affinity (DTA) training pipeline
(`dta_cross.py`, `layers.py`).

The Python source is shallowly embedded: pure functions become Lean functions over
`List ℚ` (torch float tensors), `List Nat` (index tensors) and explicit records;
the stateful pieces (early stopping, the training/evaluation loops, the checkpoint
files) become explicit state passing; fallible code returns `Option`/`Except`.
The chemistry toolkit's SMILES parser and the pretrained neural sub-layers are
boundary dependencies and enter as function parameters; everything written in the
repository itself (graph construction, dataset loading, the loss, the loops, early
stopping, checkpoint bookkeeping, the fusion wiring) is translated statement by
statement from the source.
-/

/-! ## Molecular graph builder (`smiles_to_graph`, dta_cross.py lines 25-56)

RDKit molecules are modelled by the exact data `smiles_to_graph` reads from them:
per-atom feature ints and per-bond endpoint indices plus feature values.  RDKit
guarantees bond endpoints are valid atom indices, that no bond is a self loop and
that no two bonds join the same atom pair; theorems carry this as `Mol.WF`. -/

structure Atom where
  atomicNum : ℤ
  hybridization : ℤ
  chirality : ℤ
  degree : ℤ
deriving DecidableEq

structure Bond where
  src : Nat
  dst : Nat
  bondType : ℚ
  bondDir : ℤ
  aromatic : Bool
deriving DecidableEq

structure Mol where
  atoms : List Atom
  bonds : List Bond
deriving DecidableEq

/-- `node_feature = [atomic_num, int(hybridization), int(chirality), degree]` (line 37). -/
def atomFeature (a : Atom) : List ℚ :=
  [(a.atomicNum : ℚ), (a.hybridization : ℚ), (a.chirality : ℚ), (a.degree : ℚ)]

/-- `edge_feature = [bond_type, int(bond_dir), int(aromatic)]` (line 48). -/
def bondFeature (b : Bond) : List ℚ :=
  [b.bondType, (b.bondDir : ℚ), if b.aromatic then 1 else 0]

/-- networkx adjacency-dict entry update: a new neighbour is appended at the end,
an existing one is left in place (`G.add_edge` assigns into an insertion-ordered
dict). -/
def insertNbr (l : List Nat) (v : Nat) : List Nat :=
  if v ∈ l then l else l ++ [v]

/-- The neighbour list of node `u` in the adjacency structure. -/
def adjAt (adj : List (List Nat)) (u : Nat) : List Nat :=
  adj.getD u []

/-- `G.add_edge(start_idx, end_idx)` (line 50): records the edge in both endpoint
adjacency dicts.  Nodes 0..n-1 were all added beforehand (line 39), so the update
is in place. -/
def addEdge (adj : List (List Nat)) (u v : Nat) : List (List Nat) :=
  (adj.set u (insertNbr (adjAt adj u) v)).set v
    (insertNbr (adjAt (adj.set u (insertNbr (adjAt adj u) v)) v) u)

/-- The adjacency structure of `G` after adding one node per atom (in atom-index
order) and one edge per bond (in bond order). -/
def buildAdj (n : Nat) (bonds : List Bond) : List (List Nat) :=
  bonds.foldl (fun a b => addEdge a b.src b.dst) (List.replicate n [])

/-- networkx `G.edges` iteration: nodes are scanned in insertion order; each
node's neighbours are scanned in adjacency order; an edge is emitted from the
first endpoint scanned and suppressed at the second (the `seen` set grows after a
node's neighbours are done). -/
def nxEdgesAux : Nat → List (List Nat) → List Nat → List (Nat × Nat)
  | _, [], _ => []
  | i, nbrs :: rest, seen =>
      (nbrs.filter (fun v => decide (v ∉ seen))).map (fun v => (i, v)) ++
        nxEdgesAux (i + 1) rest (i :: seen)

/-- `list(G.edges)` (line 53). -/
def nxEdges (adj : List (List Nat)) : List (Nat × Nat) :=
  nxEdgesAux 0 adj []

/-- The `torch_geometric.data.Data` object returned on line 56, with tensors as
nested lists. -/
structure GraphData where
  x : List (List ℚ)
  edge_index : List (List Nat)
  edge_attr : List (List ℚ)
  num_nodes : Nat
  num_edges : Nat
deriving DecidableEq

/-- The shape `torch.tensor` gives a (possibly empty) list of rows:
`torch.tensor([])` is one-dimensional of size 0; a nonempty list of rows gives a
two-dimensional tensor. -/
def tShape {α : Type} : List (List α) → List Nat
  | [] => [0]
  | r :: rest => [rest.length + 1, r.length]

/-- Lines 29-56 applied to an already parsed molecule: node features in atom
order, edge features in bond order, edge index as `list(G.edges)` transposed
(`.t()` on the 1-D empty tensor returns it unchanged). -/
def molToGraph (m : Mol) : GraphData :=
  let node_features := m.atoms.map atomFeature
  let edge_features := m.bonds.map bondFeature
  let es := nxEdges (buildAdj m.atoms.length m.bonds)
  { x := node_features
    edge_index := if es = [] then [] else [es.map Prod.fst, es.map Prod.snd]
    edge_attr := edge_features
    num_nodes := m.atoms.length
    num_edges := es.length }

/-- `smiles_to_graph` (lines 25-56): the RDKit parser (`Chem.MolFromSmiles`) is a
boundary dependency passed as `parse`; a failed parse returns the absent value
(line 27-28). -/
def smiles_to_graph (parse : String → Option Mol) (smiles : String) : Option GraphData :=
  (parse smiles).map molToGraph

/-- Endpoint test: bond `b` joins atoms `u` and `v` (in either orientation). -/
def bondEnds (b : Bond) (u v : Nat) : Prop :=
  (b.src = u ∧ b.dst = v) ∨ (b.src = v ∧ b.dst = u)

instance (b : Bond) (u v : Nat) : Decidable (bondEnds b u v) :=
  inferInstanceAs (Decidable ((b.src = u ∧ b.dst = v) ∨ (b.src = v ∧ b.dst = u)))

/-- Well-formedness RDKit guarantees for any parsed molecule: bond endpoints are
atom indices, no self loops, no two bonds join the same atom pair. -/
def Mol.WF (m : Mol) : Prop :=
  (∀ b ∈ m.bonds, b.src < m.atoms.length ∧ b.dst < m.atoms.length ∧ b.src ≠ b.dst) ∧
    List.Pairwise (fun b c => ¬ bondEnds b c.src c.dst) m.bonds

instance (m : Mol) : Decidable m.WF :=
  inferInstanceAs (Decidable (_ ∧ _))

example : insertNbr [1, 3] 3 = [1, 3] := by decide
example : nxEdges (buildAdj 3 [⟨0, 1, 1, 0, false⟩, ⟨1, 2, 1, 0, false⟩, ⟨0, 2, 1, 0, false⟩]) =
    [(0, 1), (0, 2), (1, 2)] := by decide

/-! ### Each bond is stored exactly once in `list(G.edges)`

`G.edges` of the undirected networkx graph emits every recorded edge exactly once.
This is proved by counting: the traversal emits, at node `i`, the neighbours not
smaller than `i` (`countFrom`), and adding a fresh edge increases that count by
exactly one. -/

theorem getD_set_self {α : Type} : ∀ (l : List α) (i : Nat) (x d : α), i < l.length →
    (l.set i x).getD i d = x
  | [], _, _, _, h => absurd h (by simp)
  | _ :: _, 0, _, _, _ => rfl
  | _ :: l, i + 1, x, d, h => getD_set_self l i x d (Nat.lt_of_succ_lt_succ (by simpa using h))

theorem getD_set_other {α : Type} : ∀ (l : List α) (i j : Nat) (x d : α), i ≠ j →
    (l.set i x).getD j d = l.getD j d
  | [], _, _, _, _, _ => rfl
  | _ :: _, 0, 0, _, _, h => absurd rfl h
  | _ :: _, 0, _ + 1, _, _, _ => rfl
  | _ :: _, _ + 1, 0, _, _, _ => rfl
  | _ :: l, i + 1, j + 1, x, d, h => getD_set_other l i j x d (fun e => h (by rw [e]))

theorem mem_insertNbr (l : List Nat) (v x : Nat) : x ∈ insertNbr l v ↔ x ∈ l ∨ x = v := by
  unfold insertNbr
  split
  · rename_i h
    constructor
    · exact Or.inl
    · rintro (hx | rfl)
      · exact hx
      · exact h
  · simp

/-- Edge `(u, v)` is recorded in the adjacency structure. -/
def adjMem (adj : List (List Nat)) (u v : Nat) : Prop :=
  v ∈ adjAt adj u

theorem length_addEdge (adj : List (List Nat)) (u v : Nat) :
    (addEdge adj u v).length = adj.length := by
  simp [addEdge]

theorem adjAt_set_self (adj : List (List Nat)) (u : Nat) (l : List Nat) (h : u < adj.length) :
    adjAt (adj.set u l) u = l :=
  getD_set_self adj u l [] h

theorem adjAt_set_other (adj : List (List Nat)) (u w : Nat) (l : List Nat) (h : u ≠ w) :
    adjAt (adj.set u l) w = adjAt adj w :=
  getD_set_other adj u w l [] h

theorem adjAt_addEdge_fst (adj : List (List Nat)) (u v : Nat)
    (hu : u < adj.length) (huv : u ≠ v) :
    adjAt (addEdge adj u v) u = insertNbr (adjAt adj u) v := by
  unfold addEdge
  rw [adjAt_set_other _ v u _ (Ne.symm huv), adjAt_set_self _ u _ hu]

theorem adjAt_addEdge_snd (adj : List (List Nat)) (u v : Nat)
    (hv : v < adj.length) (huv : u ≠ v) :
    adjAt (addEdge adj u v) v = insertNbr (adjAt adj v) u := by
  unfold addEdge
  rw [adjAt_set_self _ v _ (by simpa using hv), adjAt_set_other _ u v _ huv]

theorem adjAt_addEdge_other (adj : List (List Nat)) (u v w : Nat)
    (hwu : w ≠ u) (hwv : w ≠ v) :
    adjAt (addEdge adj u v) w = adjAt adj w := by
  unfold addEdge
  rw [adjAt_set_other _ v w _ (Ne.symm hwv), adjAt_set_other _ u w _ (Ne.symm hwu)]

theorem adjMem_addEdge (adj : List (List Nat)) (u v a b : Nat)
    (hu : u < adj.length) (hv : v < adj.length) (huv : u ≠ v) :
    adjMem (addEdge adj u v) a b ↔ adjMem adj a b ∨ (a = u ∧ b = v) ∨ (a = v ∧ b = u) := by
  unfold adjMem
  by_cases hau : a = u
  · subst hau
    rw [adjAt_addEdge_fst adj a v hu huv, mem_insertNbr]
    simp [huv]
  · by_cases hav : a = v
    · subst hav
      rw [adjAt_addEdge_snd adj u a hv huv, mem_insertNbr]
      simp [hau, Ne.symm huv]
    · rw [adjAt_addEdge_other adj u v a hau hav]
      simp [hau, hav]

/-- The number of pairs the `G.edges` traversal will emit: at scan position `i`,
the neighbours with index at least `i`. -/
def countFrom : Nat → List (List Nat) → Nat
  | _, [] => 0
  | i, nbrs :: rest => (nbrs.filter (fun v => decide (i ≤ v))).length + countFrom (i + 1) rest

theorem length_nxEdgesAux : ∀ (rest : List (List Nat)) (i : Nat) (seen : List Nat),
    (∀ v, v ∈ seen ↔ v < i) → (nxEdgesAux i rest seen).length = countFrom i rest
  | [], _, _, _ => rfl
  | nbrs :: rest, i, seen, hseen => by
      unfold nxEdgesAux countFrom
      rw [List.length_append, List.length_map]
      have hfil : nbrs.filter (fun v => decide (v ∉ seen)) =
          nbrs.filter (fun v => decide (i ≤ v)) := by
        apply List.filter_congr
        intro a _
        simp only [decide_eq_decide]
        rw [hseen a]
        omega
      rw [hfil, length_nxEdgesAux rest (i + 1) (i :: seen)
        (by intro v; rw [List.mem_cons, hseen v]; omega)]

theorem countFrom_set : ∀ (adj : List (List Nat)) (i u : Nat) (l' : List Nat), u < adj.length →
    countFrom i (adj.set u l') + ((adjAt adj u).filter (fun v => decide (i + u ≤ v))).length =
      countFrom i adj + (l'.filter (fun v => decide (i + u ≤ v))).length
  | [], _, _, _, h => absurd h (by simp)
  | nbrs :: rest, i, 0, l', _ => by
      show countFrom i (l' :: rest) + _ = _
      unfold countFrom
      simp only [adjAt, List.getD_cons_zero, Nat.add_zero]
      omega
  | nbrs :: rest, i, u + 1, l', h => by
      have ih := countFrom_set rest (i + 1) u l' (by simpa using h)
      show countFrom i (nbrs :: rest.set u l') + _ = _
      unfold countFrom
      simp only [adjAt, List.getD_cons_succ]
      simp only [show i + (u + 1) = (i + 1) + u from by omega] at *
      unfold adjAt at ih
      omega

theorem length_filter_single (p : Nat → Bool) (v : Nat) :
    (([v] : List Nat).filter p).length = if p v then 1 else 0 := by
  cases h : p v <;> simp [List.filter, h]

theorem countFrom_addEdge (adj : List (List Nat)) (u v : Nat)
    (hu : u < adj.length) (hv : v < adj.length) (huv : u ≠ v)
    (h1 : ¬ adjMem adj u v) (h2 : ¬ adjMem adj v u) :
    countFrom 0 (addEdge adj u v) = countFrom 0 adj + 1 := by
  have e1 : insertNbr (adjAt adj u) v = adjAt adj u ++ [v] := if_neg h1
  have e3 : insertNbr (adjAt adj v) u = adjAt adj v ++ [u] := if_neg h2
  unfold addEdge
  rw [e1, adjAt_set_other adj u v _ huv, e3]
  have c1 := countFrom_set adj 0 u (adjAt adj u ++ [v]) hu
  have c2 := countFrom_set (adj.set u (adjAt adj u ++ [v])) 0 v (adjAt adj v ++ [u])
    (by simpa using hv)
  rw [adjAt_set_other adj u v _ huv] at c2
  simp only [List.filter_append, List.length_append, length_filter_single] at c1 c2
  rcases Nat.lt_or_gt_of_ne huv with hlt | hgt
  · have d1 : u ≤ v := by omega
    have d2 : ¬ v ≤ u := by omega
    simp [d1, d2] at c1 c2
    omega
  · have d1 : ¬ u ≤ v := by omega
    have d2 : v ≤ u := by omega
    simp [d1, d2] at c1 c2
    omega

theorem countFrom_fold : ∀ (bs : List Bond) (adj : List (List Nat)) (P : List Bond),
    (∀ u v, adjMem adj u v ↔ ∃ p ∈ P, bondEnds p u v) →
    (∀ b ∈ bs, b.src < adj.length ∧ b.dst < adj.length ∧ b.src ≠ b.dst) →
    (∀ b ∈ bs, ∀ p ∈ P, ¬ bondEnds p b.src b.dst) →
    List.Pairwise (fun b c => ¬ bondEnds b c.src c.dst) bs →
    countFrom 0 (bs.foldl (fun a b => addEdge a b.src b.dst) adj) = countFrom 0 adj + bs.length
  | [], _, _, _, _, _, _ => by simp
  | b :: bs, adj, P, hchar, hb, hnew, hpw => by
    obtain ⟨hsrc, hdst, hne⟩ := hb b (List.mem_cons_self b bs)
    have hf1 : ¬ adjMem adj b.src b.dst := by
      rw [hchar]
      rintro ⟨p, hp, hpe⟩
      exact hnew b (List.mem_cons_self b bs) p hp hpe
    have hf2 : ¬ adjMem adj b.dst b.src := by
      rw [hchar]
      rintro ⟨p, hp, hpe⟩
      apply hnew b (List.mem_cons_self b bs) p hp
      unfold bondEnds at *
      tauto
    have hstep := countFrom_addEdge adj b.src b.dst hsrc hdst hne hf1 hf2
    have hchar' : ∀ u v, adjMem (addEdge adj b.src b.dst) u v ↔
        ∃ p ∈ b :: P, bondEnds p u v := by
      intro u v
      rw [adjMem_addEdge adj b.src b.dst u v hsrc hdst hne, hchar]
      constructor
      · rintro (⟨p, hp, hpe⟩ | ⟨rfl, rfl⟩ | ⟨rfl, rfl⟩)
        · exact ⟨p, List.mem_cons_of_mem _ hp, hpe⟩
        · exact ⟨b, List.mem_cons_self _ _, Or.inl ⟨rfl, rfl⟩⟩
        · exact ⟨b, List.mem_cons_self _ _, Or.inr ⟨rfl, rfl⟩⟩
      · rintro ⟨p, hp, hpe⟩
        rcases List.mem_cons.mp hp with rfl | hp'
        · rcases hpe with ⟨h1, h2⟩ | ⟨h1, h2⟩
          · exact Or.inr (Or.inl ⟨h1.symm, h2.symm⟩)
          · exact Or.inr (Or.inr ⟨h2.symm, h1.symm⟩)
        · exact Or.inl ⟨p, hp', hpe⟩
    have hb' : ∀ c ∈ bs, c.src < (addEdge adj b.src b.dst).length ∧
        c.dst < (addEdge adj b.src b.dst).length ∧ c.src ≠ c.dst := by
      intro c hc
      have := hb c (List.mem_cons_of_mem _ hc)
      simpa [length_addEdge] using this
    have hnew' : ∀ c ∈ bs, ∀ p ∈ b :: P, ¬ bondEnds p c.src c.dst := by
      intro c hc p hp
      rcases List.mem_cons.mp hp with rfl | hp'
      · exact (List.pairwise_cons.mp hpw).1 c hc
      · exact hnew c (List.mem_cons_of_mem _ hc) p hp'
    have ih := countFrom_fold bs (addEdge adj b.src b.dst) (b :: P) hchar' hb' hnew'
      (List.pairwise_cons.mp hpw).2
    simp only [List.foldl_cons, List.length_cons]
    omega

theorem getD_replicate_nil (n u : Nat) :
    (List.replicate n ([] : List Nat)).getD u [] = [] := by
  induction n generalizing u with
  | zero => rfl
  | succ n ih =>
    cases u with
    | zero => rfl
    | succ u => exact ih u

theorem adjMem_replicate (n u v : Nat) : ¬ adjMem (List.replicate n ([] : List Nat)) u v := by
  unfold adjMem adjAt
  rw [getD_replicate_nil]
  exact List.not_mem_nil v

theorem countFrom_replicate (n : Nat) : ∀ i, countFrom i (List.replicate n []) = 0 := by
  induction n with
  | zero => intro i; rfl
  | succ n ih => intro i; simp [List.replicate, countFrom, ih]

/-- Each bond of a well-formed molecule appears exactly once in `list(G.edges)`:
the edge list is single-direction, not symmetrized. -/
theorem nxEdges_length (m : Mol) (hwf : m.WF) :
    (nxEdges (buildAdj m.atoms.length m.bonds)).length = m.bonds.length := by
  have h0 : ∀ u v, adjMem (List.replicate m.atoms.length ([] : List Nat)) u v ↔
      ∃ p ∈ ([] : List Bond), bondEnds p u v := by
    intro u v
    constructor
    · intro h
      exact absurd h (adjMem_replicate _ u v)
    · rintro ⟨p, hp, -⟩
      exact absurd hp (List.not_mem_nil p)
  have hb : ∀ b ∈ m.bonds, b.src < (List.replicate m.atoms.length ([] : List Nat)).length ∧
      b.dst < (List.replicate m.atoms.length ([] : List Nat)).length ∧ b.src ≠ b.dst := by
    simpa [List.length_replicate] using hwf.1
  have hfold := countFrom_fold m.bonds (List.replicate m.atoms.length []) [] h0 hb
    (by intro b _ p hp; exact absurd hp (List.not_mem_nil p)) hwf.2
  unfold nxEdges buildAdj
  rw [length_nxEdgesAux _ 0 [] (by intro v; simp)]
  rw [hfold, countFrom_replicate]
  omega

theorem nxEdgesAux_replicate (n : Nat) : ∀ i seen,
    nxEdgesAux i (List.replicate n []) seen = [] := by
  induction n with
  | zero => intro i seen; rfl
  | succ n ih => intro i seen; simp [List.replicate, nxEdgesAux, ih]

/-- A molecule with no bonds yields an empty `list(G.edges)`. -/
theorem nxEdges_buildAdj_nil (n : Nat) : nxEdges (buildAdj n []) = [] :=
  nxEdgesAux_replicate n 0 []

/-! ## Dataset loader (`load_dataset`, dta_cross.py lines 123-134)

One CSV row carries the three columns the loader reads.  The loop appends the
row's SMILES to `smiles_strs` first (line 127), then builds the graph and, when
the build returns the absent value, skips only the remaining three appends
(lines 129-133). -/

structure Row where
  iso_smiles : String
  target_sequence : String
  affinity : ℚ
deriving DecidableEq

def load_dataset (parse : String → Option Mol) :
    List Row → List String × List GraphData × List String × List ℚ
  | [] => ([], [], [], [])
  | r :: rs =>
    let rest := load_dataset parse rs
    match smiles_to_graph parse r.iso_smiles with
    | none => (r.iso_smiles :: rest.1, rest.2.1, rest.2.2.1, rest.2.2.2)
    | some g => (r.iso_smiles :: rest.1, g :: rest.2.1,
        r.target_sequence :: rest.2.2.1, r.affinity :: rest.2.2.2)

/-! ## Edge pairing (`smiles_to_graph` edge tensors, claim C2)

Column `i` of the returned edge index, and the property that row `i` of
`edge_attr` describes the bond recorded in column `i`. -/

/-- Column `i` of the `(2, numEdges)` edge-index tensor. -/
def edgeColumn (g : GraphData) (i : Nat) : Nat × Nat :=
  ((g.edge_index.getD 0 []).getD i 0, (g.edge_index.getD 1 []).getD i 0)

/-- Claim C2 as stated: each edge-index column is paired with the feature row of
the very bond it records, every bond appearing exactly once. -/
def pairedCorrectly (m : Mol) : Prop :=
  (molToGraph m).num_edges = m.bonds.length ∧
    ∀ i, i < (molToGraph m).num_edges →
      ∃ b ∈ m.bonds, bondEnds b (edgeColumn (molToGraph m) i).1 (edgeColumn (molToGraph m) i).2 ∧
        (molToGraph m).edge_attr.getD i [] = bondFeature b

instance (m : Mol) : Decidable (pairedCorrectly m) :=
  inferInstanceAs (Decidable (_ ∧ _))

/-- A four-membered ring with one double bond (as RDKit produces for the SMILES
`C1CC=C1`: chain bonds 0-1, 1-2, the double bond 2-3, and the ring-closure bond
back to atom 0 added last). -/
def molRing : Mol :=
  { atoms := [⟨6, 4, 0, 2⟩, ⟨6, 4, 0, 2⟩, ⟨6, 3, 0, 2⟩, ⟨6, 3, 0, 2⟩]
    bonds := [⟨0, 1, 1, 0, false⟩, ⟨1, 2, 1, 0, false⟩, ⟨2, 3, 2, 0, false⟩,
      ⟨3, 0, 1, 0, false⟩] }

example : molRing.WF := by decide
example : nxEdges (buildAdj molRing.atoms.length molRing.bonds) =
    [(0, 1), (0, 3), (1, 2), (2, 3)] := by decide
example : ¬ pairedCorrectly molRing := by decide

/-! ## Claims C1, C2: loader alignment and edge pairing -/

/-- A two-atom, one-bond molecule (as RDKit produces for the SMILES `CO`). -/
def molPair : Mol :=
  { atoms := [⟨6, 4, 0, 1⟩, ⟨8, 4, 0, 1⟩], bonds := [⟨0, 1, 1, 0, false⟩] }

/-- A toy parser that accepts only the SMILES `"B"`. -/
def parseProbe : String → Option Mol :=
  fun s => if s = "B" then some molPair else none

def rowsProbe : List Row :=
  [⟨"A", "SEQ1", 1⟩, ⟨"B", "SEQ2", 2⟩]

/-- Claim C1 counterexample: on a CSV whose first row's SMILES fails to parse,
the returned SMILES list still contains the failed SMILES (it is appended before
the skip check, line 127), so the four collections are not index-aligned: the
SMILES list has 2 entries, the graph list 1. -/
theorem claim_C1_counterexample :
    smiles_to_graph parseProbe "A" = none ∧
    "A" ∈ (load_dataset parseProbe rowsProbe).1 ∧
    (load_dataset parseProbe rowsProbe).1.length = 2 ∧
    (load_dataset parseProbe rowsProbe).2.1.length = 1 := by
  refine ⟨rfl, ?_, rfl, rfl⟩
  show "A" ∈ ["A", "B"]
  simp

/-- Claim C1 amended: the returned SMILES list contains every input row's SMILES
in file order (failed rows included), while the graph, sequence and affinity
collections contain entries exactly for the rows whose graph construction
succeeded and remain mutually index-aligned: the i-th graph, i-th sequence and
i-th affinity all come from the i-th successful row. -/
theorem claim_C1_amended (parse : String → Option Mol) (rows : List Row) :
    (load_dataset parse rows).1 = rows.map Row.iso_smiles ∧
    (load_dataset parse rows).2.1.map Option.some =
      (rows.filter (fun r => (smiles_to_graph parse r.iso_smiles).isSome)).map
        (fun r => smiles_to_graph parse r.iso_smiles) ∧
    (load_dataset parse rows).2.2.1 =
      (rows.filter (fun r => (smiles_to_graph parse r.iso_smiles).isSome)).map
        Row.target_sequence ∧
    (load_dataset parse rows).2.2.2 =
      (rows.filter (fun r => (smiles_to_graph parse r.iso_smiles).isSome)).map Row.affinity := by
  induction rows with
  | nil => exact ⟨rfl, rfl, rfl, rfl⟩
  | cons r rs ih =>
    obtain ⟨ih1, ih2, ih3, ih4⟩ := ih
    cases hg : smiles_to_graph parse r.iso_smiles with
    | none => simp [load_dataset, hg, ih1, ih2, ih3, ih4, List.filter_cons]
    | some g => simp [load_dataset, hg, ih1, ih2, ih3, ih4, List.filter_cons]

/-- A parser mapping the ring SMILES to the ring molecule. -/
def parseRing : String → Option Mol :=
  fun _ => some molRing

/-- Claim C2 counterexample: for the four-membered ring, `list(G.edges)` orders
edges by node-adjacency traversal, `[(0,1), (0,3), (1,2), (2,3)]`, while the
edge-feature rows stay in bond order; at position 2 the edge-index column holds
atoms (1,2) but the feature row `[2, 0, 0]` belongs to the double bond 2-3, and
the actual 1-2 bond is single — so the claimed row/column pairing fails. -/
theorem claim_C2_counterexample :
    smiles_to_graph parseRing "C1CC=C1" = some (molToGraph molRing) ∧
    molRing.WF ∧
    edgeColumn (molToGraph molRing) 2 = (1, 2) ∧
    (molToGraph molRing).edge_attr.getD 2 [] = [2, 0, 0] ∧
    ¬ pairedCorrectly molRing := by
  refine ⟨rfl, by decide, by decide, by decide, by decide⟩

/-- Claim C2 amended: `edge_attr` lists the 3-feature bond vectors in the
toolkit's bond order, `edge_index` lists each bond's endpoints exactly once (a
single direction, not symmetrized) in the graph library's node-adjacency
traversal order, and the claimed position-wise row/column pairing holds exactly
when that traversal yields the bonds in bond order (as it does for chain-like
molecules, but not for rings). -/
theorem claim_C2_amended (m : Mol) (hwf : m.WF) :
    (molToGraph m).edge_attr = m.bonds.map bondFeature ∧
    (molToGraph m).num_edges = m.bonds.length ∧
    (nxEdges (buildAdj m.atoms.length m.bonds) = m.bonds.map (fun b => (b.src, b.dst)) →
      pairedCorrectly m) := by
  refine ⟨rfl, nxEdges_length m hwf, ?_⟩
  intro heq
  refine ⟨nxEdges_length m hwf, ?_⟩
  intro i hi
  have hlen : (nxEdges (buildAdj m.atoms.length m.bonds)).length = m.bonds.length :=
    nxEdges_length m hwf
  have hib : i < m.bonds.length := by
    simpa [molToGraph, hlen] using hi
  refine ⟨m.bonds[i], List.getElem_mem hib, ?_, ?_⟩
  · have hne : nxEdges (buildAdj m.atoms.length m.bonds) ≠ [] := by
      intro hnil
      rw [hnil] at hlen
      simp at hlen
      omega
    have hcol : edgeColumn (molToGraph m) i = (m.bonds[i].src, m.bonds[i].dst) := by
      simp only [edgeColumn, molToGraph, if_neg hne]
      have h1 : ((nxEdges (buildAdj m.atoms.length m.bonds)).map Prod.fst).getD i 0 =
          m.bonds[i].src := by
        rw [List.getD_eq_getElem _ _ (by simpa [hlen] using hib)]
        simp [heq]
      have h2 : ((nxEdges (buildAdj m.atoms.length m.bonds)).map Prod.snd).getD i 0 =
          m.bonds[i].dst := by
        rw [List.getD_eq_getElem _ _ (by simpa [hlen] using hib)]
        simp [heq]
      rw [List.getD_cons_zero, List.getD_cons_succ, List.getD_cons_zero, h1, h2]
    rw [hcol]
    exact Or.inl ⟨rfl, rfl⟩
  · show (m.bonds.map bondFeature).getD i [] = bondFeature m.bonds[i]
    rw [List.getD_eq_getElem _ _ (by simpa using hib)]
    simp

/-- Witness for the amended claim C2 at the two-atom, one-bond molecule. -/
theorem claim_C2_amended_witness :
    molPair.WF ∧
    ((molToGraph molPair).edge_attr = molPair.bonds.map bondFeature ∧
      (molToGraph molPair).num_edges = molPair.bonds.length ∧
      (nxEdges (buildAdj molPair.atoms.length molPair.bonds) =
          molPair.bonds.map (fun b => (b.src, b.dst)) →
        pairedCorrectly molPair)) :=
  ⟨by decide, claim_C2_amended molPair (by decide)⟩

/-! ## Claim C6: tensor shapes of the returned graph -/

/-- A single-atom, zero-bond molecule (as RDKit produces for the SMILES `C`). -/
def molSolo : Mol :=
  { atoms := [⟨6, 4, 0, 0⟩], bonds := [] }

/-- Claim C6 counterexample: for a valid molecule with zero bonds,
`torch.tensor([])` is one-dimensional of size 0 (`.t()` leaves it unchanged), so
the edge-index tensor has shape `(0,)` rather than `(2, 0)` and the edge-feature
tensor has shape `(0,)` rather than `(0, 3)`. -/
theorem claim_C6_counterexample :
    molSolo.WF ∧
    (molToGraph molSolo).num_edges = 0 ∧
    tShape (molToGraph molSolo).edge_index = [0] ∧
    tShape (molToGraph molSolo).edge_index ≠ [2, (molToGraph molSolo).num_edges] ∧
    tShape (molToGraph molSolo).edge_attr ≠ [(molToGraph molSolo).num_edges, 3] := by
  decide

/-- Claim C6 amended: for every SMILES that parses to a molecule, the builder
never returns the absent value; the node-feature matrix has shape
(numNodes × 4) (the molecule having at least one atom) with every node vector of
arity 4 and every edge vector of arity 3, and the stored counts are the
molecule's atom and bond counts; when the molecule has at least one bond the
edge-index tensor has shape (2 × numEdges) and the edge-feature tensor
(numEdges × 3), while in the zero-bond boundary case both edge tensors are empty
one-dimensional tensors. -/
theorem claim_C6_amended (parse : String → Option Mol) (s : String) (m : Mol)
    (hp : parse s = some m) (hwf : m.WF) (hatoms : m.atoms ≠ []) :
    smiles_to_graph parse s = some (molToGraph m) ∧
    tShape (molToGraph m).x = [m.atoms.length, 4] ∧
    (∀ row ∈ (molToGraph m).x, row.length = 4) ∧
    (∀ row ∈ (molToGraph m).edge_attr, row.length = 3) ∧
    (molToGraph m).num_nodes = m.atoms.length ∧
    (molToGraph m).num_edges = m.bonds.length ∧
    (m.bonds ≠ [] →
      tShape (molToGraph m).edge_index = [2, m.bonds.length] ∧
      tShape (molToGraph m).edge_attr = [m.bonds.length, 3]) ∧
    (m.bonds = [] →
      tShape (molToGraph m).edge_index = [0] ∧ tShape (molToGraph m).edge_attr = [0]) := by
  have hlen : (nxEdges (buildAdj m.atoms.length m.bonds)).length = m.bonds.length :=
    nxEdges_length m hwf
  refine ⟨by simp [smiles_to_graph, hp], ?_, ?_, ?_, rfl, hlen, ?_, ?_⟩
  · show tShape (m.atoms.map atomFeature) = [m.atoms.length, 4]
    cases ha : m.atoms with
    | nil => exact absurd ha hatoms
    | cons a as => simp [tShape, atomFeature]
  · intro row hrow
    obtain ⟨a, -, rfl⟩ := List.mem_map.mp hrow
    rfl
  · intro row hrow
    obtain ⟨b, -, rfl⟩ := List.mem_map.mp hrow
    rfl
  · intro hbonds
    have hne : nxEdges (buildAdj m.atoms.length m.bonds) ≠ [] := by
      intro hnil
      rw [hnil] at hlen
      exact hbonds (List.eq_nil_of_length_eq_zero hlen.symm)
    constructor
    · show tShape (molToGraph m).edge_index = _
      simp only [molToGraph, if_neg hne]
      simp [tShape, hlen]
    · show tShape (m.bonds.map bondFeature) = _
      cases hb : m.bonds with
      | nil => exact absurd hb hbonds
      | cons b bs => simp [tShape, bondFeature]
  · intro hbonds
    have hnil : nxEdges (buildAdj m.atoms.length m.bonds) = [] := by
      rw [hbonds]
      exact nxEdges_buildAdj_nil m.atoms.length
    constructor
    · show tShape (molToGraph m).edge_index = _
      simp [molToGraph, hnil]
      rfl
    · show tShape (m.bonds.map bondFeature) = _
      rw [hbonds]
      rfl

/-- Witness for the amended claim C6 at the two-atom, one-bond molecule, through
a parser that accepts only the SMILES `"B"`. -/
theorem claim_C6_amended_witness :
    parseProbe "B" = some molPair ∧ molPair.WF ∧ molPair.atoms ≠ [] ∧
    (smiles_to_graph parseProbe "B" = some (molToGraph molPair) ∧
      tShape (molToGraph molPair).x = [molPair.atoms.length, 4] ∧
      (∀ row ∈ (molToGraph molPair).x, row.length = 4) ∧
      (∀ row ∈ (molToGraph molPair).edge_attr, row.length = 3) ∧
      (molToGraph molPair).num_nodes = molPair.atoms.length ∧
      (molToGraph molPair).num_edges = molPair.bonds.length ∧
      (molPair.bonds ≠ [] →
        tShape (molToGraph molPair).edge_index = [2, molPair.bonds.length] ∧
        tShape (molToGraph molPair).edge_attr = [molPair.bonds.length, 3]) ∧
      (molPair.bonds = [] →
        tShape (molToGraph molPair).edge_index = [0] ∧
        tShape (molToGraph molPair).edge_attr = [0])) :=
  ⟨rfl, by decide, by decide,
    claim_C6_amended parseProbe "B" molPair rfl (by decide) (by decide)⟩

/-! ## Weighted loss (`WeightedMSELoss`, dta_cross.py lines 294-301) -/

/-- `forward(preds, targets)` of `WeightedMSELoss`:
`weights = torch.where(targets > 5, self.weight, 1.0)` followed by
`torch.mean(weights * (preds - targets) ** 2)`, elementwise over the batch. -/
def weightedMSELoss (weight : ℚ) (preds targets : List ℚ) : ℚ :=
  (List.zipWith (fun p t => (if 5 < t then weight else 1) * (p - t) ^ 2) preds targets).sum /
    (List.zipWith (fun p t => (if 5 < t then weight else 1) * (p - t) ^ 2) preds targets).length

theorem zipWith_sum_range (f : ℚ → ℚ → ℚ) : ∀ (ps ts : List ℚ), ps.length = ts.length →
    (List.zipWith f ps ts).sum =
      ((List.range ts.length).map (fun i => f (ps.getD i 0) (ts.getD i 0))).sum
  | [], [], _ => rfl
  | [], _ :: _, h => by simp at h
  | _ :: _, [], h => by simp at h
  | p :: ps, t :: ts, h => by
    have ih := zipWith_sum_range f ps ts (by simpa using h)
    simp only [List.zipWith_cons_cons, List.sum_cons, List.length_cons]
    rw [List.range_succ_eq_map]
    simp only [List.map_cons, List.sum_cons, List.getD_cons_zero, List.map_map]
    rw [ih]
    rfl

theorem zipWith_self_sum_zero (f : ℚ → ℚ → ℚ) (hf : ∀ x, f x x = 0) :
    ∀ l : List ℚ, (List.zipWith f l l).sum = 0
  | [] => rfl
  | x :: l => by
    simp only [List.zipWith_cons_cons, List.sum_cons, hf x, zipWith_self_sum_zero f hf l]
    ring

/-- Claim C3: `WeightedMSELoss` returns the mean over examples of
`w_i * (p_i - t_i)^2` with `w_i = weight` exactly when `t_i > 5` (strict) and 1
otherwise; it is 0 whenever predictions equal targets, and for targets [0, 10],
predictions [0, 0] and weight 10 it equals 500. -/
theorem claim_C3 (w : ℚ) (preds targets : List ℚ)
    (hlen : preds.length = targets.length) (_hpos : 0 < targets.length) :
    weightedMSELoss w preds targets =
      ((List.range targets.length).map (fun i =>
        (if 5 < targets.getD i 0 then w else 1) *
          (preds.getD i 0 - targets.getD i 0) ^ 2)).sum / targets.length ∧
    (preds = targets → weightedMSELoss w preds targets = 0) ∧
    weightedMSELoss 10 [0, 0] [0, 10] = 500 := by
  refine ⟨?_, ?_, by norm_num [weightedMSELoss]⟩
  · unfold weightedMSELoss
    rw [zipWith_sum_range _ preds targets hlen]
    have hl : (List.zipWith
        (fun p t => (if 5 < t then w else 1) * (p - t) ^ 2) preds targets).length =
        targets.length := by
      simp [List.length_zipWith, hlen]
    rw [hl]
  · rintro rfl
    unfold weightedMSELoss
    rw [zipWith_self_sum_zero (fun p t => (if 5 < t then w else 1) * (p - t) ^ 2)
      (fun x => by simp) preds]
    simp

/-- Witness for claim C3 at weight 2, predictions [1, 2], targets [1, 2]. -/
theorem claim_C3_witness :
    ([1, 2] : List ℚ).length = ([1, 2] : List ℚ).length ∧
    0 < ([1, 2] : List ℚ).length ∧
    (weightedMSELoss 2 [1, 2] [1, 2] =
        ((List.range ([1, 2] : List ℚ).length).map (fun i =>
          (if 5 < ([1, 2] : List ℚ).getD i 0 then 2 else 1) *
            (([1, 2] : List ℚ).getD i 0 - ([1, 2] : List ℚ).getD i 0) ^ 2)).sum /
          ([1, 2] : List ℚ).length ∧
      (([1, 2] : List ℚ) = [1, 2] → weightedMSELoss 2 [1, 2] [1, 2] = 0) ∧
      weightedMSELoss 10 [0, 0] [0, 10] = 500) :=
  ⟨rfl, by decide, claim_C3 2 [1, 2] [1, 2] rfl (by decide)⟩

/-! ## Early stopping (`EarlyStopping`, dta_cross.py lines 216-251)

The controller's mutable attributes become a state record; `float('inf')` is the
top element of `WithTop ℚ`; the best-model file at `checkpoint_path` is modelled
by the `saved` field (the content last written by `torch.save`, or `none` if
nothing was written yet). -/

/-- The bundle written by `torch.save` (lines 236-241): epoch, model state dict,
optimizer state dict, loss. -/
structure ESBundle (M O : Type) where
  epoch : Nat
  modelState : M
  optState : O
  loss : ℚ
deriving DecidableEq

structure ESState (M O : Type) where
  patience : Nat
  bestLoss : WithTop ℚ
  counter : Nat
  earlyStop : Bool
  saved : Option (ESBundle M O)
deriving DecidableEq

/-- `__init__` (lines 217-229): best loss starts at positive infinity, counter at
0, stop flag false, nothing saved yet. -/
def esInit {M O : Type} (patience : Nat) : ESState M O :=
  { patience := patience, bestLoss := ⊤, counter := 0, earlyStop := false, saved := none }

/-- `__call__(val_loss, model, optimizer, epoch)` (lines 231-251). -/
def esCall {M O : Type} (s : ESState M O) (val_loss : ℚ) (model : M) (optimizer : O)
    (epoch : Nat) : ESState M O :=
  if (val_loss : WithTop ℚ) < s.bestLoss then
    { s with
      bestLoss := (val_loss : WithTop ℚ)
      counter := 0
      saved := some ⟨epoch, model, optimizer, val_loss⟩ }
  else
    if s.counter + 1 ≥ s.patience then
      { s with counter := s.counter + 1, earlyStop := true }
    else
      { s with counter := s.counter + 1 }

/-- Folding the controller over a loss sequence, one call per epoch, starting
from the freshly constructed state. -/
def esRun (patience : Nat) (losses : List ℚ) : ESState Unit Unit :=
  losses.enum.foldl (fun st vl => esCall st vl.2 () () vl.1) (esInit patience)

/-- Claim C4: a strictly improving call updates the best loss, resets the
counter and overwrites the best-model file with the bundle {epoch, model state,
optimizer state, loss}; any other call increments the counter and performs the
set-stop-flag action exactly when the new counter reaches or exceeds the
patience; with patience 2 the loss sequence [1.0, 1.1, 0.5, 0.6, 0.7] leaves
the flag unset after 0.6 and sets it only after 0.7. -/
theorem claim_C4 {M O : Type} (s : ESState M O) (v : ℚ) (m : M) (o : O) (e : Nat) :
    (((v : WithTop ℚ) < s.bestLoss →
        esCall s v m o e = { s with
          bestLoss := (v : WithTop ℚ)
          counter := 0
          saved := some ⟨e, m, o, v⟩ }) ∧
      (¬ (v : WithTop ℚ) < s.bestLoss →
        (esCall s v m o e).counter = s.counter + 1 ∧
        (esCall s v m o e).bestLoss = s.bestLoss ∧
        (esCall s v m o e).saved = s.saved ∧
        ((esCall s v m o e).earlyStop = true ↔
          (s.earlyStop = true ∨ s.patience ≤ s.counter + 1)))) ∧
    ((esRun 2 [1, 11/10, 1/2, 3/5]).earlyStop = false ∧
      (esRun 2 [1, 11/10, 1/2, 3/5, 7/10]).earlyStop = true) := by
  constructor
  · constructor
    · intro h
      simp [esCall, h]
    · intro h
      unfold esCall
      rw [if_neg h]
      by_cases hc : s.counter + 1 ≥ s.patience
      · simp [hc]
      · simp [hc]
  · constructor
    · norm_num [esRun, esCall, esInit, List.enum, List.enumFrom]
    · norm_num [esRun, esCall, esInit, List.enum, List.enumFrom]

/-- Witness for claim C4: a call with loss 1 on the fresh state improves on the
initial best of positive infinity, so it saves the bundle {epoch 0, model state,
optimizer state, loss 1}; the patience-2 scenario is as claimed. -/
theorem claim_C4_witness :
    esCall (esInit 2 : ESState Unit Unit) 1 () () 0 =
      { (esInit 2 : ESState Unit Unit) with
        bestLoss := ((1 : ℚ) : WithTop ℚ)
        counter := 0
        saved := some ⟨0, (), (), 1⟩ } ∧
    (esRun 2 [1, 11/10, 1/2, 3/5]).earlyStop = false ∧
    (esRun 2 [1, 11/10, 1/2, 3/5, 7/10]).earlyStop = true :=
  ⟨(claim_C4 (esInit 2 : ESState Unit Unit) 1 () () 0).1.1 (WithTop.coe_lt_top 1),
    (claim_C4 (esInit 2 : ESState Unit Unit) 1 () () 0).2.1,
    (claim_C4 (esInit 2 : ESState Unit Unit) 1 () () 0).2.2⟩

/-! ## Batch-size assertion (`AffinityPredictionModel.forward` lines 97-98 and the
training loop body, lines 150-156)

The protein encoder returns one embedding row per input sequence; the drug
encoder pools node rows with `global_mean_pool(x, batch)`, whose output has
`batch.max() + 1` rows.  A `torch_geometric` batch built from `k` molecules with
at least one atom each has assignment vector `[0]*n_0 ++ [1]*n_1 ++ ...`, so the
pooled output has one row per molecule. -/

/-- The batch-assignment vector of a merged graph batch whose molecules have the
given node counts, starting at molecule index `i`. -/
def batchVec : Nat → List Nat → List Nat
  | _, [] => []
  | i, n :: rest => List.replicate n i ++ batchVec (i + 1) rest

/-- Number of rows of `global_mean_pool(x, batch)`: `batch.max() + 1`. -/
def poolRows (v : List Nat) : Nat :=
  v.foldl Nat.max 0 + 1

/-- The forward pass up to the assertion (lines 84-98): one protein-embedding row
per sequence, one drug-embedding row per pooled molecule, then
`assert protein_embedding.size(0) == drug_embedding.size(0)`. -/
def forwardAssert (sequences : List String) (sizes : List Nat) : Except String Unit :=
  if sequences.length = poolRows (batchVec 0 sizes) then Except.ok ()
  else Except.error "Batch size mismatch"

/-- One iteration of the training-loop body (lines 150-156): the forward pass
runs before the loss, the backward pass and `optimizer.step()`; an assertion
failure propagates out of the loop body, leaving the parameters as they were. -/
def trainBatchStep {P : Type} (optStep : P → P) (params : P)
    (sequences : List String) (sizes : List Nat) : P × Option String :=
  match forwardAssert sequences sizes with
  | Except.error e => (params, some e)
  | Except.ok _ => (optStep params, none)

theorem foldl_max_init (l : List Nat) : ∀ a, l.foldl Nat.max a = Nat.max a (l.foldl Nat.max 0) := by
  induction l with
  | nil => intro a; simp
  | cons b l ih =>
    intro a
    simp only [List.foldl_cons]
    rw [ih (Nat.max a b), ih (Nat.max 0 b)]
    simp [Nat.max_assoc, Nat.zero_max]

theorem foldl_max_replicate (i : Nat) : ∀ (n : Nat) (a : Nat),
    (List.replicate n i).foldl Nat.max a = if n = 0 then a else Nat.max a i := by
  intro n
  induction n with
  | zero => intro a; rfl
  | succ n ih =>
    intro a
    simp only [List.replicate, List.foldl_cons, ih]
    cases n with
    | zero => simp
    | succ n => simp [Nat.max_assoc]

theorem batchVec_max : ∀ (sizes : List Nat) (i : Nat), sizes ≠ [] → (∀ s ∈ sizes, 1 ≤ s) →
    (batchVec i sizes).foldl Nat.max 0 = i + (sizes.length - 1)
  | [], _, h, _ => absurd rfl h
  | n :: rest, i, _, hall => by
    have hn : n ≠ 0 := by
      have := hall n (List.mem_cons_self n rest)
      omega
    show (List.replicate n i ++ batchVec (i + 1) rest).foldl Nat.max 0 = _
    cases rest with
    | nil =>
      rw [show batchVec (i + 1) [] = [] from rfl, List.append_nil, foldl_max_replicate,
        if_neg hn]
      simp
    | cons m rest' =>
      have ih := batchVec_max (m :: rest') (i + 1) (by simp) (by
        intro s hs
        exact hall s (List.mem_cons_of_mem _ hs))
      rw [List.foldl_append, foldl_max_replicate, if_neg hn, foldl_max_init, ih]
      simp only [Nat.zero_max, List.length_cons]
      simp only [Nat.max_eq_right (by omega : i ≤ i + 1 + (rest'.length + 1 - 1))]
      omega

/-- For a batch of molecules with at least one atom each, the pooled
drug-embedding has exactly one row per distinct molecule. -/
theorem poolRows_batchVec (sizes : List Nat) (hne : sizes ≠ []) (hall : ∀ s ∈ sizes, 1 ≤ s) :
    poolRows (batchVec 0 sizes) = sizes.length := by
  unfold poolRows
  rw [batchVec_max sizes 0 hne hall]
  have : 1 ≤ sizes.length := by
    cases sizes with
    | nil => exact absurd rfl hne
    | cons a l => simp
  omega

/-- Claim C5: the training-loop body raises the fatal batch-mismatch assertion
exactly when the number of protein embeddings (one per sequence) differs from
the number of distinct molecules in the drug graph batch, and whenever it
raises, the failure precedes loss computation, backpropagation and the optimizer
step, so the parameters are returned unchanged. -/
theorem claim_C5 {P : Type} (optStep : P → P) (params : P)
    (sequences : List String) (sizes : List Nat)
    (hne : sizes ≠ []) (hall : ∀ s ∈ sizes, 1 ≤ s) :
    ((trainBatchStep optStep params sequences sizes).2.isSome ↔
      sequences.length ≠ sizes.length) ∧
    ((trainBatchStep optStep params sequences sizes).2.isSome →
      (trainBatchStep optStep params sequences sizes).1 = params) := by
  unfold trainBatchStep forwardAssert
  rw [poolRows_batchVec sizes hne hall]
  by_cases h : sequences.length = sizes.length
  · simp [h]
  · simp [h]

/-- Witness for claim C5: a protein batch of 3 sequences with a graph batch of 4
one-atom molecules raises the mismatch error and leaves the parameters (here a
counter that the optimizer step would increment) unchanged. -/
theorem claim_C5_witness :
    ([1, 1, 1, 1] : List Nat) ≠ [] ∧ (∀ s ∈ ([1, 1, 1, 1] : List Nat), 1 ≤ s) ∧
    (((trainBatchStep Nat.succ 0 ["P1", "P2", "P3"] [1, 1, 1, 1]).2.isSome ↔
        (["P1", "P2", "P3"] : List String).length ≠ ([1, 1, 1, 1] : List Nat).length) ∧
      ((trainBatchStep Nat.succ 0 ["P1", "P2", "P3"] [1, 1, 1, 1]).2.isSome →
        (trainBatchStep Nat.succ 0 ["P1", "P2", "P3"] [1, 1, 1, 1]).1 = 0)) :=
  ⟨by decide, by decide, claim_C5 Nat.succ 0 ["P1", "P2", "P3"] [1, 1, 1, 1]
    (by decide) (by decide)⟩

/-! ## Fusion head (`AffinityPredictionModel`, dta_cross.py lines 59-120, and
`CrossLayer`, layers.py lines 70-95)

The pretrained protein encoder, the multi-head attention blocks and the capsule
layers are boundary/opaque components and enter as function parameters on a
per-example row; `CrossLayer.forward` is pure linear algebra and is embedded in
full.  Everything here works on one example's feature row (`dim=-1`
concatenation acts row-wise). -/

/-- An `nn.Linear`: weight rows (out-features many, each in-features long) and a
bias per output feature. -/
structure Linear where
  weight : List (List ℚ)
  bias : List ℚ
deriving DecidableEq

def dot (xs ys : List ℚ) : ℚ :=
  (List.zipWith (fun a b => a * b) xs ys).sum

def Linear.apply (f : Linear) (x : List ℚ) : List ℚ :=
  List.zipWith (fun row b => dot row x + b) f.weight f.bias

def reluVec (x : List ℚ) : List ℚ :=
  x.map (fun a => max a 0)

structure CrossLayer where
  fc1 : Linear
  fc2 : Linear
  fc3 : Linear
deriving DecidableEq

/-- `CrossLayer.forward` (layers.py lines 78-95): zero-pad the narrower embedding
to the wider width, take the elementwise product, concatenate
[protein, drug, product], then fc1-relu-fc2-relu-fc3. -/
def CrossLayer.forward (cl : CrossLayer) (protein_embedding drug_embedding : List ℚ) :
    List ℚ :=
  let maxDim := Nat.max protein_embedding.length drug_embedding.length
  let pe := if protein_embedding.length ≠ drug_embedding.length then
    protein_embedding ++ List.replicate (maxDim - protein_embedding.length) 0
    else protein_embedding
  let de := if protein_embedding.length ≠ drug_embedding.length then
    drug_embedding ++ List.replicate (maxDim - drug_embedding.length) 0
    else drug_embedding
  let cross_product := List.zipWith (fun a b => a * b) pe de
  let concatenated := pe ++ de ++ cross_product
  cl.fc3.apply (reluVec (cl.fc2.apply (reluVec (cl.fc1.apply concatenated))))

/-- Modelled from the spec: the `CapsuleLayer` implementation is not present in
the available source (`layers.py` has no such class, yet `dta_cross.py` line 74
instantiates it); per spec section 4.4.4 it maps one embedding row per example to
one fixed-size vector per example, so it is modelled as an opaque row function
whose output width is a hypothesis of the theorems that use it. -/
def CapsuleFn : Type :=
  List ℚ → List ℚ

/-- The regression-head input built by `forward` (lines 100-109): the
feature-crossing scalar, the cross-attention vector and the two capsule vectors
are computed, the self-attention vector is computed but does not enter the
concatenation, and the six signals are concatenated in the fixed source order. -/
def affinityCombined (cl : CrossLayer) (crossAttn : List ℚ → List ℚ → List ℚ)
    (selfAttn : List ℚ → List ℚ) (proteinCapsule drugCapsule : CapsuleFn)
    (protein_embedding drug_embedding : List ℚ) : List ℚ :=
  let cross := cl.forward protein_embedding drug_embedding
  let attention_output := crossAttn protein_embedding drug_embedding
  let _self_attn := selfAttn drug_embedding
  let protein_caps := proteinCapsule protein_embedding
  let drug_caps := drugCapsule drug_embedding
  protein_embedding ++ drug_embedding ++ cross ++ attention_output ++
    protein_caps ++ drug_caps

/-- `output_dim` (line 77): the head width the model's fc1 expects. -/
def headInputDim (protein_dim drug_dim attention_dim : Nat) : Nat :=
  protein_dim + drug_dim + 1 + attention_dim + attention_dim * 2

theorem length_linear_apply (f : Linear) (x : List ℚ) :
    (f.apply x).length = Nat.min f.weight.length f.bias.length := by
  simp [Linear.apply, List.length_zipWith]

/-- The feature-crossing layer emits one scalar per example: its fc3 maps to a
single output feature (`nn.Linear(hidden_dim, 1)`, layers.py line 75). -/
theorem length_crossLayer_forward (cl : CrossLayer) (pe de : List ℚ)
    (h3w : cl.fc3.weight.length = 1) (h3b : cl.fc3.bias.length = 1) :
    (cl.forward pe de).length = 1 := by
  unfold CrossLayer.forward
  rw [length_linear_apply, h3w, h3b]
  rfl

/-- Claim C7: the regression-head input is the concatenation, in this fixed
order, of [protein embedding, drug embedding, feature-crossing scalar,
cross-attention vector, protein capsule vector, drug capsule vector]; the
self-attention vector is computed but not concatenated; and the total width is
protein_dim + drug_dim + 1 + attention_dim + 2 * attention_dim, matching the
declared head width of line 77, under the spec's example wiring in which the
capsule output width equals the attention dimension. -/
theorem claim_C7 (cl : CrossLayer) (crossAttn : List ℚ → List ℚ → List ℚ)
    (selfAttn : List ℚ → List ℚ) (proteinCapsule drugCapsule : CapsuleFn)
    (pe de : List ℚ) (protein_dim drug_dim attention_dim capsule_width : Nat)
    (hpe : pe.length = protein_dim) (hde : de.length = drug_dim)
    (h3w : cl.fc3.weight.length = 1) (h3b : cl.fc3.bias.length = 1)
    (hattn : (crossAttn pe de).length = attention_dim)
    (hpc : (proteinCapsule pe).length = capsule_width)
    (hdc : (drugCapsule de).length = capsule_width)
    (hcap : capsule_width = attention_dim) :
    affinityCombined cl crossAttn selfAttn proteinCapsule drugCapsule pe de =
      pe ++ de ++ cl.forward pe de ++ crossAttn pe de ++
        proteinCapsule pe ++ drugCapsule de ∧
    (affinityCombined cl crossAttn selfAttn proteinCapsule drugCapsule pe de).length =
      headInputDim protein_dim drug_dim attention_dim ∧
    (∀ f g : List ℚ → List ℚ,
      affinityCombined cl crossAttn f proteinCapsule drugCapsule pe de =
        affinityCombined cl crossAttn g proteinCapsule drugCapsule pe de) := by
  refine ⟨rfl, ?_, fun f g => rfl⟩
  unfold affinityCombined headInputDim
  simp only [List.length_append, hpe, hde, hattn, hpc, hdc,
    length_crossLayer_forward cl pe de h3w h3b, hcap]
  omega

/-- A concrete one-scalar cross layer for the claim C7 witness. -/
def clProbe : CrossLayer :=
  ⟨⟨[], []⟩, ⟨[], []⟩, ⟨[[1]], [0]⟩⟩

/-- Witness for claim C7 at one-dimensional embeddings and width-1 opaque
sub-layers. -/
theorem claim_C7_witness :
    affinityCombined clProbe (fun _ _ => [5]) (fun _ => [9]) (fun _ => [7]) (fun _ => [8])
        [1] [2] =
      [1] ++ [2] ++ clProbe.forward [1] [2] ++ [5] ++ [7] ++ [8] ∧
    (affinityCombined clProbe (fun _ _ => [5]) (fun _ => [9]) (fun _ => [7]) (fun _ => [8])
        [1] [2]).length = headInputDim 1 1 1 :=
  ⟨(claim_C7 clProbe (fun _ _ => [5]) (fun _ => [9]) (fun _ => [7]) (fun _ => [8])
      [1] [2] 1 1 1 1 rfl rfl rfl rfl rfl rfl rfl rfl).1,
    (claim_C7 clProbe (fun _ _ => [5]) (fun _ => [9]) (fun _ => [7]) (fun _ => [8])
      [1] [2] 1 1 1 1 rfl rfl rfl rfl rfl rfl rfl rfl).2.1⟩

/-! ## Checkpointing (`save_checkpoint` lines 194-204, `load_checkpoint` lines
206-213)

`torch.save`/`torch.load` serialize bundles exactly; the filesystem is an
association list with the latest write first.  A file name
`epoch_{epoch+1}_loss_{loss:.4f}.pt` is modelled by its directory, its one-based
epoch, and its loss rendered to 4 decimal places. -/

structure Checkpoint (M O : Type) where
  epoch : Nat
  model_state_dict : M
  optimizer_state_dict : O
  loss : ℚ
deriving DecidableEq

structure CkptPath where
  dir : String
  epochPlusOne : Nat
  lossTimesTenThousand : ℤ
deriving DecidableEq

/-- The file path of line 197: `epoch_{epoch + 1}_loss_{loss:.4f}.pt` inside the
checkpoint directory. -/
def checkpointPath (checkpoint_dir : String) (epoch : Nat) (loss : ℚ) : CkptPath :=
  ⟨checkpoint_dir, epoch + 1, round (loss * 10000)⟩

def FileSys (M O : Type) : Type :=
  List (CkptPath × Checkpoint M O)

/-- `save_checkpoint` (lines 194-204): writes the bundle {epoch, model state
dict, optimizer state dict, loss} to the versioned path. -/
def save_checkpoint {M O : Type} (fs : FileSys M O) (model : M) (optimizer : O)
    (epoch : Nat) (loss : ℚ) (checkpoint_dir : String) : FileSys M O :=
  (checkpointPath checkpoint_dir epoch loss, ⟨epoch, model, optimizer, loss⟩) :: fs

/-- `load_checkpoint` (lines 206-213): reads the bundle at the path, restores
model parameters and optimizer state in place from the stored state dicts, and
returns (model, optimizer, epoch, loss); a missing file is fatal (`none`). -/
def load_checkpoint {M O : Type} (fs : FileSys M O) (p : CkptPath) :
    Option (M × O × Nat × ℚ) :=
  (fs.find? (fun entry => decide (entry.1 = p))).map
    (fun entry => (entry.2.model_state_dict, entry.2.optimizer_state_dict,
      entry.2.epoch, entry.2.loss))

/-- Claim C8: saving a checkpoint for epoch e with loss L and loading the
written file (named by directory, epoch e+1 and L to 4 decimals) restores
exactly the saved model parameter values and optimizer state and returns exactly
epoch e and loss L — bit-for-bit, no tolerance, since the bundle is serialized
and read back unchanged. -/
theorem claim_C8 {M O : Type} (fs : FileSys M O) (model : M) (optimizer : O)
    (epoch : Nat) (loss : ℚ) (checkpoint_dir : String) :
    load_checkpoint (save_checkpoint fs model optimizer epoch loss checkpoint_dir)
      (checkpointPath checkpoint_dir epoch loss) = some (model, optimizer, epoch, loss) := by
  unfold load_checkpoint save_checkpoint
  rw [List.find?_cons_of_pos _ (by simp)]
  rfl

/-! ## Evaluation loop (`evaluate_model`, dta_cross.py lines 162-190)

State-passing embedding of the per-batch loop body (lines 170-182): the loop's
local accumulators (`total_loss`, `all_preds`, `all_targets`) together with the
ambient mutable state the loop can see — the model parameters and the optimizer
state.  No statement of the body writes the latter two.  The model forward, the
evaluation criterion and `compute_metrics` (sklearn/lifelines boundary) are
function parameters. -/

structure EvalAcc (P O : Type) where
  params : P
  optState : O
  total_loss : ℚ
  all_preds : List ℚ
  all_targets : List ℚ

/-- One iteration of the `for batch in pbar` body (lines 170-182). -/
def evalStep {P O B : Type} (modelFwd : P → B → List ℚ)
    (criterion : List ℚ → List ℚ → ℚ) (affinities : B → List ℚ)
    (st : EvalAcc P O) (batch : B) : EvalAcc P O :=
  { st with
    total_loss := st.total_loss + criterion (modelFwd st.params batch) (affinities batch)
    all_preds := st.all_preds ++ modelFwd st.params batch
    all_targets := st.all_targets ++ affinities batch }

/-- `evaluate_model` (lines 162-190): runs the loop over all batches, then
computes metrics over the full concatenated target/prediction arrays and the
mean of the per-batch losses.  The returned tuple carries the Python return
value (average loss, metrics) together with the ambient state after the call. -/
def evaluate_model {P O B M : Type} (modelFwd : P → B → List ℚ)
    (criterion : List ℚ → List ℚ → ℚ) (affinities : B → List ℚ)
    (compute_metrics : List ℚ → List ℚ → M)
    (params : P) (optState : O) (data_loader : List B) : ℚ × M × P × O :=
  let final := data_loader.foldl (evalStep modelFwd criterion affinities)
    ⟨params, optState, 0, [], []⟩
  (final.total_loss / data_loader.length,
    compute_metrics final.all_targets final.all_preds, final.params, final.optState)

theorem eval_foldl {P O B : Type} (modelFwd : P → B → List ℚ)
    (criterion : List ℚ → List ℚ → ℚ) (affinities : B → List ℚ) :
    ∀ (loader : List B) (st : EvalAcc P O),
      loader.foldl (evalStep modelFwd criterion affinities) st =
        { params := st.params
          optState := st.optState
          total_loss := st.total_loss +
            (loader.map (fun b => criterion (modelFwd st.params b) (affinities b))).sum
          all_preds := st.all_preds ++ (loader.map (fun b => modelFwd st.params b)).flatten
          all_targets := st.all_targets ++ (loader.map affinities).flatten }
  | [], st => by simp
  | b :: loader, st => by
    rw [List.foldl_cons, eval_foldl modelFwd criterion affinities loader]
    simp [evalStep, add_assoc, List.append_assoc]

/-- Claim C9: a complete run of `evaluate_model` leaves the model's parameters
and the optimizer's state exactly as they were (no statement of the loop body
updates them and no optimizer step is taken), and returns the mean over batches
of the per-batch criterion losses together with the metrics computed over the
full concatenated prediction and target arrays of the pass. -/
theorem claim_C9 {P O B M : Type} (modelFwd : P → B → List ℚ)
    (criterion : List ℚ → List ℚ → ℚ) (affinities : B → List ℚ)
    (compute_metrics : List ℚ → List ℚ → M) (params : P) (optState : O)
    (data_loader : List B) (_hne : data_loader ≠ []) :
    (evaluate_model modelFwd criterion affinities compute_metrics params optState
        data_loader).2.2.1 = params ∧
    (evaluate_model modelFwd criterion affinities compute_metrics params optState
        data_loader).2.2.2 = optState ∧
    (evaluate_model modelFwd criterion affinities compute_metrics params optState
        data_loader).1 =
      (data_loader.map (fun b => criterion (modelFwd params b) (affinities b))).sum /
        data_loader.length ∧
    (evaluate_model modelFwd criterion affinities compute_metrics params optState
        data_loader).2.1 =
      compute_metrics ((data_loader.map affinities).flatten)
        ((data_loader.map (fun b => modelFwd params b)).flatten) := by
  unfold evaluate_model
  rw [eval_foldl modelFwd criterion affinities data_loader]
  simp

/-- Witness for claim C9: one trivial batch, parameter state 7, optimizer state
5, constant criterion 2 — the run returns loss 2, the metrics of the
concatenated arrays, and the untouched states. -/
theorem claim_C9_witness :
    ([()] : List Unit) ≠ [] ∧
    ((evaluate_model (fun (_ : Nat) (_ : Unit) => [(1 : ℚ)]) (fun _ _ => 2)
        (fun _ => [3]) (fun t p => (t, p)) 7 5 [()]).2.2.1 = 7 ∧
      (evaluate_model (fun (_ : Nat) (_ : Unit) => [(1 : ℚ)]) (fun _ _ => 2)
        (fun _ => [3]) (fun t p => (t, p)) 7 5 [()]).2.2.2 = 5 ∧
      (evaluate_model (fun (_ : Nat) (_ : Unit) => [(1 : ℚ)]) (fun _ _ => 2)
        (fun _ => [3]) (fun t p => (t, p)) 7 5 [()]).1 =
        (([()] : List Unit).map (fun _ => (2 : ℚ))).sum / ([()] : List Unit).length ∧
      (evaluate_model (fun (_ : Nat) (_ : Unit) => [(1 : ℚ)]) (fun _ _ => 2)
        (fun _ => [3]) (fun t p => (t, p)) 7 5 [()]).2.1 =
        ((([()] : List Unit).map (fun _ => [(3 : ℚ)])).flatten,
          (([()] : List Unit).map (fun _ => [(1 : ℚ)])).flatten)) :=
  ⟨by decide, claim_C9 (fun _ _ => [1]) (fun _ _ => 2) (fun _ => [3]) (fun t p => (t, p))
    7 5 [()] (by decide)⟩

/-! ## Training loop (`train_model`, dta_cross.py lines 137-160)

The loop body (lines 143-158) constructs `loss_fn = WeightedMSELoss(weight=10)`
once (line 140) and uses it for the training loss (line 153); the call that
would use the `criterion` argument (line 152) is commented out, so `criterion`
is never read.  The backward pass and `optimizer.step()` are the autograd
boundary `optStep`, fed by the state and the batch's forward results. -/

def train_model {P B : Type} (modelFwd : P → B → List ℚ)
    (optStep : P → B → List ℚ → P) (affinities : B → List ℚ)
    (params : P) (data_loader : List B)
    (criterion : List ℚ → List ℚ → ℚ) : ℚ × P :=
  let step := fun (acc : P × ℚ) (batch : B) =>
    (optStep acc.1 batch (modelFwd acc.1 batch),
      acc.2 + weightedMSELoss 10 (modelFwd acc.1 batch) (affinities batch))
  let r := data_loader.foldl step (params, 0)
  (r.2 / data_loader.length, r.1)

/-- Claim C10: the `criterion` argument of `train_model` has no effect: two runs
differing only in the criterion perform identical parameter updates and return
the same mean loss, because the training loss is always the freshly constructed
`WeightedMSELoss(weight=10)` and the criterion parameter is never read. -/
theorem claim_C10 {P B : Type} (modelFwd : P → B → List ℚ)
    (optStep : P → B → List ℚ → P) (affinities : B → List ℚ)
    (params : P) (data_loader : List B)
    (criterion1 criterion2 : List ℚ → List ℚ → ℚ) :
    train_model modelFwd optStep affinities params data_loader criterion1 =
      train_model modelFwd optStep affinities params data_loader criterion2 :=
  rfl
